import Mathlib

/-!
Verification development for the Roundup service module of the bite
bug-tracker client (`src/bite/service/roundup.py`).  The Python code is
shallowly embedded: dictionaries become association lists, exceptions become
`Except` results, and the XML-RPC transport is abstracted as explicit reply
data passed to the decode functions.
-/

namespace Roundup

/-- Errors raised while building a request: `bite` models `BiteError` /
`InvalidQuery` (a user-facing query error), `pyIndexError` models an
uncaught Python `IndexError` (e.g. indexing into an empty string). -/
inductive BErr where
  | bite (msg : String)
  | pyIndexError
  deriving Repr, DecidableEq

/-- The single-quote character, used to render Python `repr` of a string. -/
def sq : String := String.singleton (Char.ofNat 39)

/-- The `_sorting_map` dict of `_SearchRequest.ParamParser`: map of allowed
sorting input values to service parameters, in source order. -/
def sortingMap : List (String × String) :=
  [("assignee", "assignee"),
   ("id", "id"),
   ("creator", "creator"),
   ("created", "creation"),
   ("modified", "activity"),
   ("modified-by", "actor"),
   ("components", "components"),
   ("depends", "dependencies"),
   ("keywords", "keywords"),
   ("comments", "message_count"),
   ("cc", "nosy_count"),
   ("priority", "priority"),
   ("prs", "pull_requests"),
   ("resolution", "resolution"),
   ("severity", "severity"),
   ("stage", "stage"),
   ("status", "status"),
   ("title", "title"),
   ("type", "type")]

/-- The keys of `sortingMap` in Python `sorted` (codepoint) order, as used
to build the error message listing available sorting choices. -/
def sortingKeysSorted : List String :=
  ["assignee", "cc", "comments", "components", "created", "creator",
   "depends", "id", "keywords", "modified", "modified-by", "priority",
   "prs", "resolution", "severity", "stage", "status", "title", "type"]

/-- Message of the `BiteError` raised for an unknown sort key: the source
f-string `unable to sort by: {key!r} (available choices: {choices}` (the
closing parenthesis is missing in the source). -/
def sortUnknownMsg (key : String) : String :=
  "unable to sort by: " ++ sq ++ key ++ sq ++ " (available choices: "
    ++ String.intercalate ", " sortingKeysSorted

/-- One iteration of the loop in `ParamParser.sort`: `sort[0] == '-'`
strips the leading dash and selects descending order, otherwise ascending;
the key is then resolved through `_sorting_map`, a miss raising `BiteError`.
On the empty string `sort[0]` itself raises a Python `IndexError`. -/
def parseSortTerm (t : String) : Except BErr (String × String) :=
  if t = "" then .error .pyIndexError
  else
    let (order, key) := if t.front = '-' then ("-", t.drop 1) else ("+", t)
    match sortingMap.lookup key with
    | some w => .ok (order, w)
    | none => .error (.bite (sortUnknownMsg key))

/-- The full loop of `ParamParser.sort`: translates the user's list of sort
terms into the `sorting_terms` list stored at `params['sort']`, failing on
the first bad term. -/
def sortParse : List String → Except BErr (List (String × String))
  | [] => .ok []
  | t :: ts =>
    match parseSortTerm t with
    | .error e => .error e
    | .ok e =>
      match sortParse ts with
      | .error e2 => .error e2
      | .ok rest => .ok (e :: rest)

/-- The key a sort term resolves through `_sorting_map`: the term with a
leading dash stripped. -/
def sortKeyOf (t : String) : String :=
  if t.front = '-' then t.drop 1 else t

theorem sortParse_forall2 (v : List String) (l : List (String × String)) :
    sortParse v = .ok l ↔
      List.Forall₂ (fun t e => parseSortTerm t = .ok e) v l := by
  induction v generalizing l with
  | nil =>
    simp only [sortParse]
    constructor
    · rintro h; cases h; exact List.Forall₂.nil
    · rintro h; cases h; rfl
  | cons t ts ih =>
    simp only [sortParse]
    constructor
    · intro h
      cases he : parseSortTerm t with
      | error e => rw [he] at h; cases h
      | ok e =>
        rw [he] at h
        cases hr : sortParse ts with
        | error e2 => rw [hr] at h; cases h
        | ok rest =>
          rw [hr] at h
          cases h
          exact List.Forall₂.cons he ((ih rest).mp hr)
    · intro h
      cases h with
      | cons h1 h2 =>
        rw [h1, ((ih _).mpr h2)]

set_option maxHeartbeats 1600000 in
theorem sortingMap_keys_enumerated (k : String) :
    (sortingMap.lookup k).isSome ↔ k ∈ sortingKeysSorted := by
  simp only [sortingMap, sortingKeysSorted, List.lookup, List.mem_cons,
    List.not_mem_nil, or_false]
  repeat' split
  all_goals
    simp only [Option.isSome_some, Option.isSome_none, beq_iff_eq,
      beq_eq_false_iff_ne] at *
  all_goals tauto

theorem parseSortTerm_desc (t : String) (w : String) (hne : t ≠ "")
    (hdash : t.front = '-') (hlook : sortingMap.lookup (t.drop 1) = some w) :
    parseSortTerm t = .ok ("-", w) := by
  simp [parseSortTerm, hne, hdash, hlook]

theorem parseSortTerm_asc (t : String) (w : String) (hne : t ≠ "")
    (hdash : t.front ≠ '-') (hlook : sortingMap.lookup t = some w) :
    parseSortTerm t = .ok ("+", w) := by
  simp [parseSortTerm, hne, hdash, hlook]

theorem parseSortTerm_unknown (t : String) (hne : t ≠ "")
    (hlook : sortingMap.lookup (sortKeyOf t) = none) :
    parseSortTerm t = .error (.bite (sortUnknownMsg (sortKeyOf t))) := by
  by_cases hdash : t.front = '-' <;>
    simp only [sortKeyOf, hdash, if_true, if_false, ite_true, ite_false] at hlook ⊢ <;>
    simp [parseSortTerm, hne, hdash, hlook]

/-- C1: each sort term `-name` yields a descending entry `("-", wire-key)`
and each bare `name` an ascending entry `("+", wire-key)` through
`_sorting_map`; the output list corresponds term-by-term (order preserved)
to the input list; a term whose key is absent from `_sorting_map` fails
with a `BiteError` whose message lists exactly the valid choices; parsing
`-priority,id` yields `[("-", "priority"), ("+", "id")]`. -/
theorem claim_C1_sort_parsing :
    (∀ v l, sortParse v = .ok l ↔
      List.Forall₂ (fun t e => parseSortTerm t = .ok e) v l)
    ∧ (∀ t w, t ≠ "" → t.front = '-' →
        sortingMap.lookup (t.drop 1) = some w → parseSortTerm t = .ok ("-", w))
    ∧ (∀ t w, t ≠ "" → t.front ≠ '-' →
        sortingMap.lookup t = some w → parseSortTerm t = .ok ("+", w))
    ∧ (∀ t, t ≠ "" → sortingMap.lookup (sortKeyOf t) = none →
        parseSortTerm t = .error (.bite (sortUnknownMsg (sortKeyOf t))))
    ∧ (∀ k, (sortingMap.lookup k).isSome ↔ k ∈ sortingKeysSorted)
    ∧ sortParse ["-priority", "id"] = .ok [("-", "priority"), ("+", "id")] :=
  ⟨sortParse_forall2, parseSortTerm_desc, parseSortTerm_asc,
   parseSortTerm_unknown, sortingMap_keys_enumerated, rfl⟩

/-- Witness for C1 at concrete inputs: a descending, an ascending and an
unknown term, with all hypotheses discharged by evaluation. -/
theorem claim_C1_sort_parsing_witness :
    parseSortTerm "-created" = .ok ("-", "creation")
    ∧ parseSortTerm "status" = .ok ("+", "status")
    ∧ parseSortTerm "foo" = .error (.bite (sortUnknownMsg "foo")) :=
  ⟨claim_C1_sort_parsing.2.1 "-created" "creation" (by decide) (by decide)
      (by decide),
   claim_C1_sort_parsing.2.2.1 "status" "status" (by decide) (by decide)
      (by decide),
   by
    have hk : sortKeyOf "foo" = "foo" := by decide
    have h := claim_C1_sort_parsing.2.2.2.1 "foo" (by decide) (by rw [hk]; rfl)
    rw [hk] at h
    exact h⟩

/-! Association-list model of Python `dict` with assignment and
`setdefault`, used for the ParamParser's `self.params`. -/

section Dict

variable {β : Type}

/-- Association-list lookup, first match wins (Python `d[k]` read). -/
def alookup (k : String) : List (String × β) → Option β
  | [] => none
  | e :: es => if e.1 = k then some e.2 else alookup k es

/-- Key-membership test (Python `k in d`). -/
def ahas (k : String) : List (String × β) → Bool
  | [] => false
  | e :: es => if e.1 = k then true else ahas k es

/-- In-place replacement of the value stored under an existing key. -/
def areplace (k : String) (v : β) : List (String × β) → List (String × β)
  | [] => []
  | e :: es =>
    if e.1 = k then (k, v) :: areplace k v es else e :: areplace k v es

theorem alookup_areplace_self (l : List (String × β)) (k : String) (v : β)
    (h : ahas k l = true) : alookup k (areplace k v l) = some v := by
  induction l with
  | nil => simp [ahas] at h
  | cons e es ih =>
    by_cases hk : e.1 = k
    · simp [areplace, alookup, hk]
    · simp only [ahas, hk, if_false] at h
      simp [areplace, alookup, hk, ih h]

theorem alookup_areplace_ne (l : List (String × β)) (k k' : String) (v : β)
    (h : k' ≠ k) : alookup k' (areplace k v l) = alookup k' l := by
  induction l with
  | nil => simp [areplace]
  | cons e es ih =>
    by_cases hk : e.1 = k
    · simp [areplace, alookup, hk, Ne.symm h, ih]
    · by_cases hk' : e.1 = k' <;> simp [areplace, alookup, hk, hk', h, ih]

theorem alookup_append_of_not_has (l extra : List (String × β)) (k : String)
    (h : ahas k l = false) : alookup k (l ++ extra) = alookup k extra := by
  induction l with
  | nil => simp
  | cons e es ih =>
    by_cases hk : e.1 = k
    · simp [ahas, hk] at h
    · simp only [ahas, hk, if_false] at h
      simp [alookup, hk, ih h]

theorem alookup_append_of_has (l extra : List (String × β)) (k : String)
    (h : ahas k l = true) : alookup k (l ++ extra) = alookup k l := by
  induction l with
  | nil => simp [ahas] at h
  | cons e es ih =>
    by_cases hk : e.1 = k
    · simp [alookup, hk]
    · simp only [ahas, hk, if_false] at h
      simp [alookup, hk, ih h]

theorem ahas_iff_alookup_isSome (l : List (String × β)) (k : String) :
    ahas k l = true ↔ (alookup k l).isSome := by
  induction l with
  | nil => simp [ahas, alookup]
  | cons e es ih =>
    by_cases hk : e.1 = k <;> simp [ahas, alookup, hk, ih]

theorem ahas_iff_mem_keys (l : List (String × β)) (k : String) :
    ahas k l = true ↔ k ∈ l.map Prod.fst := by
  induction l with
  | nil => simp [ahas]
  | cons e es ih =>
    by_cases hk : e.1 = k <;> simp [ahas, hk, ih, eq_comm (a := k)]

end Dict

/-- Values stored in the search request's `params` dict. -/
inductive PVal where
  | str (s : String)
  | strs (l : List String)
  | sorts (l : List (String × String))
  | codes (l : List Nat)
  deriving Repr, DecidableEq

/-- The `self.params` dict of the ParamParser: insertion-ordered key/value
pairs with Python dict assignment semantics. -/
structure Params where
  entries : List (String × PVal)
  deriving Repr, DecidableEq

def Params.keys (p : Params) : List String := p.entries.map Prod.fst

def Params.get (p : Params) (k : String) : Option PVal := alookup k p.entries

def Params.hasKey (p : Params) (k : String) : Bool := ahas k p.entries

/-- Python `d[k] = v`: replace the value in place when the key exists,
append otherwise. -/
def Params.set (p : Params) (k : String) (v : PVal) : Params :=
  if p.hasKey k then ⟨areplace k v p.entries⟩ else ⟨p.entries ++ [(k, v)]⟩

/-- Python `d.setdefault(k, v)`. -/
def Params.setdefault (p : Params) (k : String) (v : PVal) : Params :=
  if p.hasKey k then p else p.set k v

theorem Params.hasKey_iff_get_isSome (p : Params) (k : String) :
    p.hasKey k = true ↔ (p.get k).isSome :=
  ahas_iff_alookup_isSome p.entries k

theorem Params.get_set_self (p : Params) (k : String) (v : PVal) :
    (p.set k v).get k = some v := by
  unfold Params.set
  by_cases h : p.hasKey k
  · simp only [h, if_true]
    exact alookup_areplace_self p.entries k v h
  · simp only [h, if_false]
    show alookup k (p.entries ++ [(k, v)]) = some v
    rw [alookup_append_of_not_has _ _ _ (by simpa [Params.hasKey] using h)]
    simp [alookup]

theorem Params.get_set_ne (p : Params) (k k' : String) (v : PVal)
    (h : k' ≠ k) : (p.set k v).get k' = p.get k' := by
  unfold Params.set
  by_cases hk : p.hasKey k
  · simp only [hk, if_true]
    exact alookup_areplace_ne p.entries k k' v h
  · simp only [hk, if_false]
    show alookup k' (p.entries ++ [(k, v)]) = alookup k' p.entries
    by_cases hk' : ahas k' p.entries = true
    · exact alookup_append_of_has _ _ _ hk'
    · rw [alookup_append_of_not_has _ _ _ (by simpa using hk')]
      have hnone : alookup k' p.entries = none := by
        have hx := (ahas_iff_alookup_isSome p.entries k').not.mp (by simpa using hk')
        exact Option.not_isSome_iff_eq_none.mp hx
      simp [alookup, Ne.symm h, hnone]

theorem Params.setdefault_of_hasKey (p : Params) (k : String) (v : PVal)
    (h : p.hasKey k = true) : p.setdefault k v = p := by
  simp [Params.setdefault, h]

theorem Params.get_setdefault_self_of_not (p : Params) (k : String) (v : PVal)
    (h : ¬ p.hasKey k = true) : (p.setdefault k v).get k = some v := by
  simp [Params.setdefault, h, Params.get_set_self]

theorem Params.get_setdefault_ne (p : Params) (k k' : String) (v : PVal)
    (h : k' ≠ k) : (p.setdefault k v).get k' = p.get k' := by
  unfold Params.setdefault
  by_cases hk : p.hasKey k <;> simp [hk, Params.get_set_ne _ _ _ _ h]

theorem Params.hasKey_setdefault_ne (p : Params) (k k' : String) (v : PVal)
    (h : k' ≠ k) : (p.setdefault k v).hasKey k' = p.hasKey k' := by
  have h1 := Params.get_setdefault_ne p k k' v h
  by_cases hk : (p.setdefault k v).hasKey k'
  · have := (Params.hasKey_iff_get_isSome _ k').mp hk
    rw [h1] at this
    rw [hk, ((Params.hasKey_iff_get_isSome p k').mpr this)]
  · have hne := hk
    rw [Bool.not_eq_true] at hne
    rw [hne]
    by_cases hp : p.hasKey k' = true
    · exact absurd ((Params.hasKey_iff_get_isSome _ k').mpr
        (h1 ▸ (Params.hasKey_iff_get_isSome p k').mp hp)) hk
    · rw [Bool.not_eq_true] at hp; rw [hp]

/-- The guard of `ParamParser._finalize`: `not self.params or
self.params.keys() == \x7b'sort'\x7d`, i.e. every key (if any) is `sort`. -/
def noSearchTerms (p : Params) : Bool := p.keys.all (· == "sort")

/-- The default status filter computed in `_finalize`: the Python
comprehension `[i + 1 for i, x in enumerate(cached_statuses) if x != 'closed']`. -/
def openStatusCodes (cached : List String) : List Nat :=
  cached.enum.filterMap (fun e => if e.2 ≠ "closed" then some (e.1 + 1) else none)

/-- The `_finalize` step of `_SearchRequest.ParamParser`: reject queries
with no recognized search term, default the sort to ascending by id, and
default the status filter to the non-closed cached statuses when the cache
holds any statuses and the user supplied none. -/
def finalizeParams (cached : List String) (p : Params) : Except BErr Params :=
  if noSearchTerms p then
    .error (.bite "no supported search terms or options specified")
  else
    let p1 := p.setdefault "sort" (.sorts [("+", "id")])
    if p1.hasKey "status" then .ok p1
    else if cached.isEmpty then .ok p1
    else .ok (p1.set "status" (.codes (openStatusCodes cached)))

/-- C3: a QueryOptions map in which no recognized search term was supplied
(every stored key, if any, is the `sort` key) makes the finalize step fail
with the `InvalidQuery`-style `BiteError`; no network request is built. -/
theorem claim_C3_finalize_rejects_empty (cached : List String) (p : Params)
    (h : ∀ k ∈ p.keys, k = "sort") :
    finalizeParams cached p =
      .error (.bite "no supported search terms or options specified") := by
  have hg : noSearchTerms p = true := by
    simp only [noSearchTerms, List.all_eq_true]
    intro k hk
    simpa using h k hk
  simp [finalizeParams, hg]

/-- Witness for C3: a query that set only a sort key is rejected. -/
theorem claim_C3_finalize_rejects_empty_witness :
    finalizeParams ["open", "closed"] ⟨[("sort", .sorts [("-", "priority")])]⟩ =
      .error (.bite "no supported search terms or options specified") :=
  claim_C3_finalize_rejects_empty ["open", "closed"]
    ⟨[("sort", .sorts [("-", "priority")])]⟩ (by decide)

/-- C4: when finalize passes, an absent sort key is defaulted to ascending
by id and an absent status key is defaulted to the 1-based codes of the
cached statuses other than `closed` (only when the cache is non-empty);
user-supplied sort or status values are left unchanged. -/
theorem claim_C4_finalize_defaults (cached : List String) (p : Params)
    (h : ¬ ∀ k ∈ p.keys, k = "sort") :
    ∃ q, finalizeParams cached p = .ok q
      ∧ (p.hasKey "sort" = true → q.get "sort" = p.get "sort")
      ∧ (¬ p.hasKey "sort" = true → q.get "sort" = some (.sorts [("+", "id")]))
      ∧ (p.hasKey "status" = true → q.get "status" = p.get "status")
      ∧ (¬ p.hasKey "status" = true → cached ≠ [] →
          q.get "status" = some (.codes (openStatusCodes cached)))
      ∧ (¬ p.hasKey "status" = true → cached = [] → q.get "status" = none) := by
  have hg : noSearchTerms p = false := by
    rw [← Bool.not_eq_true]
    intro hc
    exact h (fun k hk => by
      have := (List.all_eq_true.mp hc) k hk
      simpa using this)
  have hsortne : ("status" : String) ≠ "sort" := by decide
  set p1 := p.setdefault "sort" (.sorts [("+", "id")]) with hp1
  have hk_status : p1.hasKey "status" = p.hasKey "status" :=
    Params.hasKey_setdefault_ne p "sort" "status" _ hsortne
  have hget_status : p1.get "status" = p.get "status" :=
    Params.get_setdefault_ne p "sort" "status" _ hsortne
  have hsort_kept : p.hasKey "sort" = true → p1.get "sort" = p.get "sort" := by
    intro hs
    rw [hp1, Params.setdefault_of_hasKey p _ _ hs]
  have hsort_def : ¬ p.hasKey "sort" = true →
      p1.get "sort" = some (.sorts [("+", "id")]) := fun hs =>
    Params.get_setdefault_self_of_not p _ _ hs
  by_cases hst : p1.hasKey "status" = true
  · refine ⟨p1, ?_, hsort_kept, hsort_def, fun _ => hget_status, ?_, ?_⟩
    · simp [finalizeParams, hg, ← hp1, hst]
    · intro hc _; rw [← hk_status] at hc; exact absurd hst hc
    · intro hc _; rw [← hk_status] at hc; exact absurd hst hc
  · by_cases hc : cached = []
    · refine ⟨p1, ?_, hsort_kept, hsort_def, fun _ => hget_status, ?_, ?_⟩
      · simp [finalizeParams, hg, ← hp1, hst, hc]
      · intro _ hne; exact absurd hc hne
      · intro _ _
        rw [hget_status]
        have hx : ¬ (p.get "status").isSome := by
          rw [← Params.hasKey_iff_get_isSome, ← hk_status]
          simp [hst]
        exact Option.not_isSome_iff_eq_none.mp hx
    · refine ⟨p1.set "status" (.codes (openStatusCodes cached)), ?_, ?_, ?_,
        ?_, ?_, ?_⟩
      · simp [finalizeParams, hg, ← hp1, hst, hc]
      · intro hs
        rw [Params.get_set_ne _ _ _ _ (Ne.symm hsortne)]
        exact hsort_kept hs
      · intro hs
        rw [Params.get_set_ne _ _ _ _ (Ne.symm hsortne)]
        exact hsort_def hs
      · intro hs
        rw [← hk_status] at hs
        exact absurd hs hst
      · intro _ _
        exact Params.get_set_self p1 "status" _
      · intro _ hce
        exact absurd hce hc

/-- Witness for C4: a title-only query against a two-status cache gets the
default sort and the default open-status filter. -/
theorem claim_C4_finalize_defaults_witness :
    ∃ q, finalizeParams ["open", "closed"] ⟨[("title", .strs ["crash"])]⟩ = .ok q
      ∧ ((⟨[("title", .strs ["crash"])]⟩ : Params).hasKey "sort" = true →
          q.get "sort" = (⟨[("title", .strs ["crash"])]⟩ : Params).get "sort")
      ∧ (¬ (⟨[("title", .strs ["crash"])]⟩ : Params).hasKey "sort" = true →
          q.get "sort" = some (.sorts [("+", "id")]))
      ∧ ((⟨[("title", .strs ["crash"])]⟩ : Params).hasKey "status" = true →
          q.get "status" = (⟨[("title", .strs ["crash"])]⟩ : Params).get "status")
      ∧ (¬ (⟨[("title", .strs ["crash"])]⟩ : Params).hasKey "status" = true →
          ["open", "closed"] ≠ [] →
          q.get "status" = some (.codes (openStatusCodes ["open", "closed"])))
      ∧ (¬ (⟨[("title", .strs ["crash"])]⟩ : Params).hasKey "status" = true →
          ["open", "closed"] = [] → q.get "status" = none) :=
  claim_C4_finalize_defaults ["open", "closed"] ⟨[("title", .strs ["crash"])]⟩
    (by decide)

/-! Enum-code resolution of `RoundupIssue.__init__`: `status`, `priority`,
`creator`/`actor` (via the `users` cache) and each element of `keyword`
are resolved as `self.service.cache[attr][int(v) - 1]` with `IndexError`
caught and the raw code kept. -/

/-- Python sequence indexing: a non-negative index within range reads from
the front, an index in `[-len, -1]` reads from the back, and anything else
raises `IndexError` (modelled as `none`). -/
def pyIndex (l : List String) (i : Int) : Option String :=
  if 0 ≤ i then
    if h : i.toNat < l.length then some (l.get ⟨i.toNat, h⟩) else none
  else
    let j := i + l.length
    if 0 ≤ j then
      if h : j.toNat < l.length then some (l.get ⟨j.toNat, h⟩) else none
    else none

/-- The `try: cache[attr][int(v) - 1] except IndexError: v` pattern of
`RoundupIssue.__init__`: a hit returns the cached name, a raising index
falls back to the raw numeric code. -/
def resolveCode (cache : List String) (code : Int) : String ⊕ Int :=
  match pyIndex cache (code - 1) with
  | some name => .inl name
  | none => .inr code

/-- The `keyword` branch of `RoundupIssue.__init__` resolves each element
of the keyword code list independently. -/
def resolveKeywords (cache : List String) (codes : List Int) : List (String ⊕ Int) :=
  codes.map (resolveCode cache)

/-- Modelled from the spec: `get(attribute, code)` returns the stored name
at position `code - 1` when that (0-based, from the front) position exists
and the raw code otherwise. -/
def specResolveCode (cache : List String) (code : Int) : String ⊕ Int :=
  if h : 0 ≤ code - 1 ∧ (code - 1).toNat < cache.length then
    .inl (cache.get ⟨(code - 1).toNat, h.2⟩)
  else .inr code

/-- Counterexample to C2 as stated: at code `0` the position `-1` does not
exist (reading positions from the front), yet the source returns the last
cached name via Python negative indexing instead of the raw code `0`. -/
theorem claim_C2_counterexample :
    resolveCode ["open", "closed"] 0 = .inl "closed"
    ∧ specResolveCode ["open", "closed"] 0 = .inr 0
    ∧ resolveCode ["open", "closed"] 0 ≠ specResolveCode ["open", "closed"] 0 := by
  refine ⟨rfl, rfl, by decide⟩

/-- C2 (amended): for 1-based codes (`code ≥ 1`) the resolution returns the
cached name at position `code - 1` when that position exists and the raw
code when it is out of range; the keyword branch applies the same
resolution elementwise. -/
theorem claim_C2_cache_fallback (cache : List String) (code : Int)
    (h : 1 ≤ code) :
    (∀ hlt : (code - 1).toNat < cache.length,
        resolveCode cache code = .inl (cache.get ⟨(code - 1).toNat, hlt⟩))
    ∧ (cache.length ≤ (code - 1).toNat → resolveCode cache code = .inr code)
    ∧ (∀ codes, resolveKeywords cache codes = codes.map (resolveCode cache)) := by
  have h0 : 0 ≤ code - 1 := by omega
  refine ⟨?_, ?_, fun _ => rfl⟩
  · intro hlt
    unfold resolveCode pyIndex
    rw [if_pos h0, dif_pos hlt]
  · intro hge
    have hnot : ¬ (code - 1).toNat < cache.length := by omega
    unfold resolveCode pyIndex
    rw [if_pos h0, dif_neg hnot]

/-- Witness for the amended C2: an in-range code resolves to its cached
name and an out-of-range code falls back to the raw code. -/
theorem claim_C2_cache_fallback_witness :
    resolveCode ["open", "closed"] 1 = .inl "open"
    ∧ resolveCode ["open", "closed"] 99 = .inr 99 := by
  constructor
  · have hx := (claim_C2_cache_fallback ["open", "closed"] 1 (by decide)).1
      (by decide)
    simpa using hx
  · exact (claim_C2_cache_fallback ["open", "closed"] 99 (by decide)).2.1
      (by decide)

/-- The keys of `RoundupIssue.attributes` (the declared attribute set of
the issue item type), in source order. -/
def issueAttributeKeys : List String :=
  ["assignee", "components", "dependencies", "files", "keywords",
   "messages", "nosy", "priority", "pull_requests", "resolution",
   "severity", "stage", "status", "superseder", "title", "type",
   "versions", "id", "creator", "creation", "actor", "activity"]

/-- The field handling of `_SearchRequest.__init__`: a missing field list
defaults to `['id', 'assignee', 'title']` with no `Fields:` option line; an
explicit list is checked against `RoundupIssue.attributes` and rejected
with the set of unknown names (`set(fields) - attributes.keys()`, here in
first-occurrence order) before any request is sent; a valid explicit list
is kept and a `Fields:` option line is recorded. -/
def searchInitFields (fields : Option (List String)) :
    Except (List String) (List String × List String) :=
  match fields with
  | none => .ok (["id", "assignee", "title"], [])
  | some fs =>
    let unknown := (fs.filter (fun f => decide (f ∉ issueAttributeKeys))).dedup
    if unknown ≠ [] then .error unknown
    else .ok (fs, ["Fields: " ++ String.intercalate " " fs])

/-- C10: without an explicit field list the fetched fields are exactly
`id`, `assignee`, `title` and no `Fields:` option line is recorded; a
fully-known explicit list is accepted unchanged; a list with names outside
the declared attribute set fails, the error naming exactly the unknown
fields. -/
theorem claim_C10_search_fields :
    searchInitFields none = .ok (["id", "assignee", "title"], [])
    ∧ (∀ fs, (∀ f ∈ fs, f ∈ issueAttributeKeys) →
        searchInitFields (some fs) =
          .ok (fs, ["Fields: " ++ String.intercalate " " fs]))
    ∧ (∀ fs, (∃ f ∈ fs, f ∉ issueAttributeKeys) →
        ∃ u, searchInitFields (some fs) = .error u ∧ u ≠ []
          ∧ (∀ f, f ∈ u ↔ f ∈ fs ∧ f ∉ issueAttributeKeys)) := by
  refine ⟨rfl, ?_, ?_⟩
  · intro fs hall
    have hf : fs.filter (fun f => decide (f ∉ issueAttributeKeys)) = [] := by
      rw [List.filter_eq_nil_iff]
      intro a ha
      simpa using hall a ha
    have h2 : (fs.filter (fun f => decide (f ∉ issueAttributeKeys))).dedup = [] := by
      rw [hf]; rfl
    simp only [searchInitFields]
    rw [if_neg (fun hc => hc h2)]
  · intro fs hex
    obtain ⟨f, hf, hfn⟩ := hex
    refine ⟨(fs.filter (fun f => decide (f ∉ issueAttributeKeys))).dedup, ?_, ?_, ?_⟩
    · have hne : (fs.filter (fun f => decide (f ∉ issueAttributeKeys))).dedup ≠ [] := by
        intro hnil
        have : f ∈ (fs.filter (fun f => decide (f ∉ issueAttributeKeys))).dedup := by
          rw [List.mem_dedup, List.mem_filter]
          exact ⟨hf, by simpa using hfn⟩
        rw [hnil] at this
        exact List.not_mem_nil f this
      simp only [searchInitFields]
      rw [if_pos hne]
    · intro hnil
      have : f ∈ (fs.filter (fun f => decide (f ∉ issueAttributeKeys))).dedup := by
        rw [List.mem_dedup, List.mem_filter]
        exact ⟨hf, by simpa using hfn⟩
      rw [hnil] at this
      exact List.not_mem_nil f this
    · intro g
      rw [List.mem_dedup, List.mem_filter]
      simp

/-- Witness for C10: a known explicit list is accepted with its `Fields:`
line; a list containing `bogus` is rejected naming exactly `bogus`. -/
theorem claim_C10_search_fields_witness :
    searchInitFields (some ["id", "title"]) =
      .ok (["id", "title"], ["Fields: id title"])
    ∧ ∃ u, searchInitFields (some ["id", "bogus"]) = .error u ∧ u ≠ []
        ∧ (∀ f, f ∈ u ↔ f ∈ ["id", "bogus"] ∧ f ∉ issueAttributeKeys) := by
  constructor
  · have hx := claim_C10_search_fields.2.1 ["id", "title"] (by decide)
    simpa using hx
  · exact claim_C10_search_fields.2.2 ["id", "bogus"] ⟨"bogus", by decide⟩

/-! The `created` translation step and its `modified` alias. -/

/-- A Python `datetime` restricted to the fields used by
`strftime('%Y-%m-%d.%H:%M:%S')`. -/
structure PyDateTime where
  year : Nat
  month : Nat
  day : Nat
  hour : Nat
  minute : Nat
  second : Nat
  deriving Repr, DecidableEq

/-- Zero-padding to two digits (`%m`, `%d`, `%H`, `%M`, `%S`). -/
def pad2 (n : Nat) : String :=
  if n < 10 then "0" ++ toString n else toString n

/-- Zero-padding to four digits (`%Y`). -/
def pad4 (n : Nat) : String :=
  if n < 10 then "000" ++ toString n
  else if n < 100 then "00" ++ toString n
  else if n < 1000 then "0" ++ toString n
  else toString n

/-- The Python `v.strftime('%Y-%m-%d.%H:%M:%S')` rendering. -/
def strftimeYmdHMS (v : PyDateTime) : String :=
  pad4 v.year ++ "-" ++ pad2 v.month ++ "-" ++ pad2 v.day ++ "." ++
    pad2 v.hour ++ ":" ++ pad2 v.minute ++ ":" ++ pad2 v.second

/-- The body of `ParamParser.created` (also run for `modified` through the
alias): stores the formatted open-ended time range under the user-facing
key `k`. -/
def createdStep (p : Params) (k : String) (v : PyDateTime) : Params :=
  p.set k (.str (strftimeYmdHMS v ++ ";."))

/-- Modelled from the spec: the ParamParser's runtime method dispatch
together with the `snakeoil.klass` `@alias('modified')` registration on
`created` (the `aliased`/`alias` machinery itself is outside `src/`): both
field names route to the one `created` step. -/
def timeStepFor (k : String) :
    Option (Params → String → PyDateTime → Params) :=
  if k = "created" then some createdStep
  else if k = "modified" then some createdStep
  else none

/-- The `_params_map` of `_SearchRequest`: user-facing keys renamed to
service parameter names when the wire request is encoded (the renaming
step itself lives in the `ParseRequest` base class outside `src/`,
modelled from the spec). -/
def paramsMapKey (k : String) : String :=
  if k = "created" then "creation"
  else if k = "modified" then "activity"
  else k

/-- The wire parameter a user-supplied time bound turns into: the
`_params_map`-renamed key paired with the value stored by the step. -/
def wireTimeParam (k : String) (v : PyDateTime) : String × String :=
  (paramsMapKey k, strftimeYmdHMS v ++ ";.")

/-- C8: the `modified` field is handled by the very same registered step
as `created` (alias registration, not duplicated logic); for every value
the two translations store an identically formatted time-range value and
differ only in the wire key (`activity` versus `creation`). -/
theorem claim_C8_modified_alias :
    timeStepFor "modified" = timeStepFor "created"
    ∧ timeStepFor "modified" = some createdStep
    ∧ (∀ p k v, createdStep p k v = p.set k (.str (strftimeYmdHMS v ++ ";.")))
    ∧ (∀ v, wireTimeParam "modified" v = ("activity", strftimeYmdHMS v ++ ";.")
        ∧ wireTimeParam "created" v = ("creation", strftimeYmdHMS v ++ ";.")
        ∧ (wireTimeParam "modified" v).2 = (wireTimeParam "created" v).2) :=
  ⟨rfl, rfl, fun _ _ _ => rfl, fun _ => ⟨rfl, rfl, rfl⟩⟩

/-! Fault translation of `_GetRequest.handle_exception` and
`RoundupError.__init__`. -/

/-- A backend fault as seen by `handle_exception`: an error code and a
message. -/
structure Fault where
  code : String
  msg : String
  deriving Repr, DecidableEq

/-- Python `\w` (ASCII portion): letters, digits and underscore. -/
def isWordChar (c : Char) : Bool := c.isAlpha || c.isDigit || c = '_'

/-- Longest word-character run at the head of a character list (the greedy
`\w+` of the `RoundupError` regex). -/
def splitWordChars : List Char → List Char × List Char
  | [] => ([], [])
  | c :: cs =>
    if isWordChar c then
      let (w, rest) := splitWordChars cs
      (c :: w, rest)
    else ([], c :: cs)

/-- The three-character separator between the two regex groups. -/
def excSep : List Char := [Char.ofNat 39, '>', ':']

/-- Greedy split point for `(.+)'>:(.+)$`: the largest prefix length whose
prefix is non-empty and newline-free, is followed by the separator, and
leaves a non-empty newline-free tail (`.` does not match a newline). -/
def greedyIdx (l : List Char) : Option Nat :=
  ((List.range (l.length + 1)).reverse).find?
    (fun i => decide (1 ≤ i) && decide ((l.drop i).take 3 = excSep)
      && decide (i + 3 < l.length + 1)
      && decide ('\n' ∉ l.take i) && decide ('\n' ∉ l.drop (i + 3)))

/-- The regex `^<\w+ '(.+)'>:(.+)$` applied by `RoundupError.__init__`
(match anchored at the start, `$` modelled as absolute end of string):
yields the extracted (code, message) groups on a match. -/
def roundupExcMatch (msg : String) : Option (String × String) :=
  match msg.data with
  | [] => none
  | c :: cs =>
    if c = '<' then
      let (w, rest) := splitWordChars cs
      if w ≠ [] then
        match rest with
        | ' ' :: q :: rest2 =>
          if q = Char.ofNat 39 then
            match greedyIdx rest2 with
            | some i =>
              some (String.mk (rest2.take i), String.mk (rest2.drop (i + 3)))
            | none => none
          else none
        | _ => none
      else none
    else none

/-- `RoundupError.__init__`: extract an embedded roundup code and message
when the regex matches, then prefix `Roundup error: `.  Returns the final
(code, msg) pair of the raised error. -/
def roundupError (msg : String) (code : Option String) :
    Option String × String :=
  match roundupExcMatch msg with
  | some (c, m) => (some c, "Roundup error: " ++ m)
  | none => (code, "Roundup error: " ++ msg)

/-- Result of `_GetRequest.handle_exception`: either a `RoundupError` is
raised (with its final code and message) or the original fault is
re-raised unchanged. -/
inductive HandleResult where
  | raised (code : Option String) (msg : String)
  | reraised (f : Fault)
  deriving Repr, DecidableEq

/-- The message built for a missing field, `"field doesn't exist: " ++ m`
(apostrophe spelled via `sq`). -/
def fieldMissingMsg (m : String) : String :=
  "field doesn" ++ sq ++ "t exist: " ++ m

/-- `_GetRequest.handle_exception`: `exceptions.IndexError` (missing
record) and `exceptions.KeyError` (missing field) become `RoundupError`s,
anything else is re-raised. -/
def handleGetException (e : Fault) : HandleResult :=
  if e.code = "exceptions.IndexError" then
    let r := roundupError e.msg none
    .raised r.1 r.2
  else if e.code = "exceptions.KeyError" then
    let r := roundupError (fieldMissingMsg e.msg) none
    .raised r.1 r.2
  else .reraised e

theorem roundupExcMatch_of_head_ne (msg : String)
    (h : msg.data.head? ≠ some '<') :
    roundupExcMatch msg = none := by
  unfold roundupExcMatch
  cases hd : msg.data with
  | nil => rfl
  | cons c cs =>
    rw [hd] at h
    simp only [List.head?_cons] at h
    have hc : c ≠ '<' := fun hc => h (by rw [hc])
    simp [hc]

theorem fieldMissingMsg_no_match (m : String) :
    roundupExcMatch (fieldMissingMsg m) = none := by
  apply roundupExcMatch_of_head_ne
  have hh : (fieldMissingMsg m).data.head? = some 'f' := rfl
  rw [hh]
  decide

/-- C7: a fault coded `exceptions.IndexError` is turned into a raised
`RoundupError` built from the fault message (the missing-record case); a
fault coded `exceptions.KeyError` is turned into a raised `RoundupError`
whose message says the field does not exist; every other fault is
re-raised unchanged. -/
theorem claim_C7_fault_translation (e : Fault) :
    (e.code = "exceptions.IndexError" →
      handleGetException e =
        .raised (roundupError e.msg none).1 (roundupError e.msg none).2)
    ∧ (e.code = "exceptions.KeyError" →
      handleGetException e =
        .raised none ("Roundup error: " ++ fieldMissingMsg e.msg))
    ∧ (e.code ≠ "exceptions.IndexError" → e.code ≠ "exceptions.KeyError" →
      handleGetException e = .reraised e) := by
  refine ⟨?_, ?_, ?_⟩
  · intro h
    simp [handleGetException, h]
  · intro h
    simp only [handleGetException, h]
    rw [if_neg (by decide), if_pos trivial]
    have hr : roundupError (fieldMissingMsg e.msg) none =
        (none, "Roundup error: " ++ fieldMissingMsg e.msg) := by
      unfold roundupError
      rw [fieldMissingMsg_no_match]
    rw [hr]
  · intro h1 h2
    simp [handleGetException, h1, h2]

/-- Witness for C7: the three fault kinds at concrete inputs. -/
theorem claim_C7_fault_translation_witness :
    handleGetException ⟨"exceptions.IndexError", "no such issue"⟩ =
      .raised none "Roundup error: no such issue"
    ∧ handleGetException ⟨"exceptions.KeyError", "bogus"⟩ =
      .raised none ("Roundup error: " ++ fieldMissingMsg "bogus")
    ∧ handleGetException ⟨"transport.Error", "boom"⟩ =
      .reraised ⟨"transport.Error", "boom"⟩ := by
  refine ⟨?_, ?_, ?_⟩
  · have hx := (claim_C7_fault_translation
      ⟨"exceptions.IndexError", "no such issue"⟩).1 rfl
    rw [hx]
    rfl
  · exact (claim_C7_fault_translation ⟨"exceptions.KeyError", "bogus"⟩).2.1 rfl
  · exact (claim_C7_fault_translation ⟨"transport.Error", "boom"⟩).2.2
      (by decide) (by decide)

/-! Comment decoding of `_CommentsRequest.parse` (the issue-ids branch). -/

/-- Raw per-message reply fields used by the comment decode step. -/
structure RawMsg where
  content : String
  date : String
  author : String
  deriving Repr, DecidableEq

/-- A decoded `RoundupComment`.  The `created` field keeps the raw wire
date string (the source converts it with `parsetime`, an injective
re-rendering that no claim depends on). -/
structure RComment where
  id : String
  count : Nat
  text : String
  created : String
  creator : String
  deriving Repr, DecidableEq

/-- The grouped decode loop of `_CommentsRequest.parse` when issue ids
were supplied: for each `(id, length)` of `_id_info`, `islice` consumes
`length` raw messages from the shared stream; each comment gets
`count = i` (the position inside its own group, restarting at 0 per
group) and `id = comment_ids[count]` for the global running index. -/
def commentsParseGroups :
    List (String × Nat) → List String → List RawMsg → List (List RComment)
  | [], _, _ => []
  | (_, len) :: rest, ids, data =>
    ((data.take len).enum.map (fun e =>
      { id := ids.getD e.1 "", count := e.1, text := e.2.content.trim,
        created := e.2.date, creator := e.2.author })) ::
      commentsParseGroups rest (ids.drop len) (data.drop len)

/-- C9: each decoded comment group assigns `count` starting at 0 for its
first comment and increasing by 1 (so `count` equals the position inside
the parent group and is unique within it), and the groups come in the
order the parent ids were supplied, one group per parent, the j-th group
holding its parent's declared number of comments. -/
theorem claim_C9_comment_counts (idInfo : List (String × Nat))
    (ids : List String) (data : List RawMsg)
    (hdata : data.length = (idInfo.map Prod.snd).sum) :
    (commentsParseGroups idInfo ids data).length = idInfo.length
    ∧ (∀ g ∈ commentsParseGroups idInfo ids data,
        g.map RComment.count = List.range g.length)
    ∧ (∀ g ∈ commentsParseGroups idInfo ids data,
        (∀ i (hi : i < g.length), (g.get ⟨i, hi⟩).count = i)
          ∧ (g.map RComment.count).Nodup)
    ∧ List.Forall₂ (fun (info : String × Nat) (g : List RComment) =>
        g.length = info.2) idInfo (commentsParseGroups idInfo ids data) := by
  have hcount : ∀ (take : List RawMsg) (ids' : List String),
      (take.enum.map (fun e =>
        ({ id := ids'.getD e.1 "", count := e.1, text := e.2.content.trim,
           created := e.2.date, creator := e.2.author } : RComment))).map
        RComment.count = List.range take.length := by
    intro take ids'
    rw [List.map_map]
    have : (RComment.count ∘ fun e : Nat × RawMsg =>
        ({ id := ids'.getD e.1 "", count := e.1, text := e.2.content.trim,
           created := e.2.date, creator := e.2.author } : RComment)) =
        Prod.fst := rfl
    rw [this, List.enum_map_fst]
  have hmain : ∀ idInfo ids data,
      data.length = ((idInfo : List (String × Nat)).map Prod.snd).sum →
      ((commentsParseGroups idInfo ids data).length = idInfo.length
        ∧ (∀ g ∈ commentsParseGroups idInfo ids data,
            g.map RComment.count = List.range g.length)
        ∧ List.Forall₂ (fun (info : String × Nat) (g : List RComment) =>
            g.length = info.2) idInfo (commentsParseGroups idInfo ids data)) := by
    intro idInfo
    induction idInfo with
    | nil =>
      intro ids data _
      exact ⟨rfl, by simp [commentsParseGroups], List.Forall₂.nil⟩
    | cons info rest ih =>
      intro ids data hd
      obtain ⟨name, len⟩ := info
      have hlen : len ≤ data.length := by
        rw [hd]; simp [List.sum_cons]
      have hdrop : (data.drop len).length = ((rest.map Prod.snd)).sum := by
        rw [List.length_drop, hd]
        simp [List.sum_cons]
      obtain ⟨ih1, ih2, ih3⟩ := ih (ids.drop len) (data.drop len) hdrop
      refine ⟨?_, ?_, ?_⟩
      · simp [commentsParseGroups, ih1]
      · intro g hg
        simp only [commentsParseGroups, List.mem_cons] at hg
        rcases hg with hg | hg
        · rw [hg]
          rw [hcount (data.take len) ids]
          simp
        · exact ih2 g hg
      · refine List.Forall₂.cons ?_ ih3
        simp [List.length_take, Nat.min_eq_left hlen]
  obtain ⟨h1, h2, h3⟩ := hmain idInfo ids data hdata
  refine ⟨h1, h2, ?_, h3⟩
  intro g hg
  constructor
  · intro i hi
    have hm := h2 g hg
    have hq : (g.map RComment.count).get? i = (List.range g.length).get? i := by
      rw [hm]
    rw [List.get?_map, List.get?_eq_get hi, List.get?_range (by simpa using hi)]
      at hq
    simpa using hq
  · rw [h2 g hg]
    exact List.nodup_range _

/-- Witness for C9: two parents with 2 and 1 comments; counts restart at 0
for the second parent. -/
theorem claim_C9_comment_counts_witness :
    (commentsParseGroups [("1", 2), ("2", 1)] ["m1", "m2", "m3"]
        [⟨"a ", "d1", "u1"⟩, ⟨"b", "d2", "u2"⟩, ⟨"c", "d3", "u3"⟩]).length = 2
    ∧ (∀ g ∈ commentsParseGroups [("1", 2), ("2", 1)] ["m1", "m2", "m3"]
        [⟨"a ", "d1", "u1"⟩, ⟨"b", "d2", "u2"⟩, ⟨"c", "d3", "u3"⟩],
        g.map RComment.count = List.range g.length)
    ∧ (∀ g ∈ commentsParseGroups [("1", 2), ("2", 1)] ["m1", "m2", "m3"]
        [⟨"a ", "d1", "u1"⟩, ⟨"b", "d2", "u2"⟩, ⟨"c", "d3", "u3"⟩],
        (∀ i (hi : i < g.length), (g.get ⟨i, hi⟩).count = i)
          ∧ (g.map RComment.count).Nodup)
    ∧ List.Forall₂ (fun (info : String × Nat) (g : List RComment) =>
        g.length = info.2) [("1", 2), ("2", 1)]
        (commentsParseGroups [("1", 2), ("2", 1)] ["m1", "m2", "m3"]
          [⟨"a ", "d1", "u1"⟩, ⟨"b", "d2", "u2"⟩, ⟨"c", "d3", "u3"⟩]) :=
  claim_C9_comment_counts [("1", 2), ("2", 1)] ["m1", "m2", "m3"]
    [⟨"a ", "d1", "u1"⟩, ⟨"b", "d2", "u2"⟩, ⟨"c", "d3", "u3"⟩] (by decide)

/-! The merged attachments/comments fetch of `_GetRequest.parse`. -/

/-- An issue record as seen by `_GetRequest.parse`: its id, attachment ids
(`files`) and comment ids (`messages`). -/
structure RIssueRec where
  id : String
  files : List String
  messages : List String
  deriving Repr, DecidableEq

/-- One sub-request of the merged batch: an `AttachmentsRequest`, a
`CommentsRequest`, or a `NullRequest` for a position with nothing to
fetch. -/
inductive FetchReq where
  | attachments (ids : List String)
  | comments (ids : List String)
  | null
  deriving Repr, DecidableEq

/-- The request batch built by the first loop of `_GetRequest.parse`: per
issue in input order, an attachments request (or `NullRequest` when the
issue has no files or attachment fetching is off) followed by a comments
request (or `NullRequest` likewise). -/
def buildGetReqs (getAtt getCom : Bool) : List RIssueRec → List FetchReq
  | [] => []
  | it :: rest =>
    (if it.files ≠ [] ∧ getAtt = true then .attachments it.files else .null)
      :: (if it.messages ≠ [] ∧ getCom = true then .comments it.messages
          else .null)
      :: buildGetReqs getAtt getCom rest

/-- Modelled from the spec: decoding one sub-request's slice of the merged
multicall reply (`merged_multicall`, outside `src/`) — a real request
decodes through the backend reply (abstracted as the functions `fa`, `fc`
from requested ids to decoded values), a `NullRequest` decodes to an empty
result without contacting the backend. -/
def runFetchReq (fa fc : List String → List String) : FetchReq → List String
  | .attachments ids => fa ids
  | .comments ids => fc ids
  | .null => []

/-- Modelled from the spec: the merged multicall executes every
sub-request of the batch in one physical round trip and yields the decoded
per-request results in batch order. -/
def mergedSend (fa fc : List String → List String) (reqs : List FetchReq) :
    List (List String) :=
  reqs.map (runFetchReq fa fc)

/-- An issue with its fetched attachments and comments attached. -/
structure GotIssue where
  issue : RIssueRec
  attachments : List String
  comments : List String
  deriving Repr, DecidableEq

/-- The second loop of `_GetRequest.parse`: per issue in order, consume
two results from the merged reply stream — its attachments slice then its
comments slice. -/
def distributeGetResults : List RIssueRec → List (List String) → List GotIssue
  | [], _ => []
  | it :: rest, a :: c :: ds => ⟨it, a, c⟩ :: distributeGetResults rest ds
  | _ :: _, _ => []

/-- C6: for every fetched issue list, `_GetRequest.parse` builds one
merged batch holding, per issue in input order, an attachments request (or
a no-op request when the issue has no attachment ids) followed by a
comments request (or a no-op request when it has no message ids); the
single merged send then distributes back so each issue receives exactly
its own two slices in input order, the no-op positions yielding empty
results. -/
theorem claim_C6_merged_get (fa fc : List String → List String)
    (issues : List RIssueRec) :
    buildGetReqs true true issues =
      issues.flatMap (fun it =>
        [if it.files ≠ [] then FetchReq.attachments it.files else .null,
         if it.messages ≠ [] then FetchReq.comments it.messages else .null])
    ∧ (buildGetReqs true true issues).length = 2 * issues.length
    ∧ distributeGetResults issues
        (mergedSend fa fc (buildGetReqs true true issues)) =
      issues.map (fun it =>
        ⟨it, if it.files ≠ [] then fa it.files else [],
             if it.messages ≠ [] then fc it.messages else []⟩) := by
  induction issues with
  | nil => exact ⟨rfl, rfl, rfl⟩
  | cons it rest ih =>
    obtain ⟨ih1, ih2, ih3⟩ := ih
    refine ⟨?_, ?_, ?_⟩
    · simp only [buildGetReqs, List.flatMap_cons, and_true, ih1]
      rfl
    · simp only [buildGetReqs, List.length_cons, ih2, List.length_cons]
      ring
    · simp only [buildGetReqs, and_true, mergedSend, List.map_cons,
        distributeGetResults, List.map_cons]
      refine congrArg₂ _ ?_ ih3
      by_cases hf : it.files ≠ [] <;> by_cases hm : it.messages ≠ [] <;>
        simp [hf, hm, runFetchReq]

/-! Cache refresh ordering of `Roundup.cache_updates`. -/

/-- Python tuple comparison `\x3c=` on the `(ordinal, name)` pairs fed to
`sorted(zip(order, values[attr]))`: ordinals first, names breaking ties. -/
def pairLe (a b : Nat × String) : Bool :=
  decide (a.1 < b.1) || (decide (a.1 = b.1) && decide (a.2 ≤ b.2))

/-- The per-attribute reordering of `Roundup.cache_updates`: `names` is
the reply of the `list` call and `ordOf` the decoded reply of the batched
per-value `lookup` multicall (the backend ordinal of each listed name);
the result is the Python
`[x for order, x in sorted(zip(order, values[attr]))]` that is stored as
the final tuple, with no further sort applied. -/
def cacheUpdateOrder (names : List String) (ordOf : String → Nat) :
    List String :=
  ((names.map (fun x => (ordOf x, x))).mergeSort pairLe).map Prod.snd

theorem pairLe_trans (a b c : Nat × String) (h1 : pairLe a b = true)
    (h2 : pairLe b c = true) : pairLe a c = true := by
  simp only [pairLe, Bool.or_eq_true, Bool.and_eq_true, decide_eq_true_eq]
    at h1 h2 ⊢
  rcases h1 with h1 | ⟨h1a, h1b⟩ <;> rcases h2 with h2 | ⟨h2a, h2b⟩
  · exact Or.inl (h1.trans h2)
  · exact Or.inl (h2a ▸ h1)
  · exact Or.inl (h1a ▸ h2)
  · exact Or.inr ⟨h1a.trans h2a, le_trans h1b h2b⟩

theorem pairLe_total (a b : Nat × String) :
    (pairLe a b || pairLe b a) = true := by
  simp only [pairLe, Bool.or_eq_true, Bool.and_eq_true, decide_eq_true_eq]
  rcases Nat.lt_trichotomy a.1 b.1 with h | h | h
  · tauto
  · rcases le_total a.2 b.2 with hs | hs
    · have h2 := h; tauto
    · have h2 := h.symm; tauto
  · tauto

/-- C5: the stored sequence for an attribute is the backend's listed names
reordered by the looked-up backend ordinals: it is a permutation of the
listed names (no name dropped, added, or client-sorted away), and when the
looked-up ordinals are exactly the codes 1..n, position `i` of the stored
sequence holds the name whose backend code is `i + 1`. -/
theorem claim_C5_cache_updates_order (names : List String)
    (ordOf : String → Nat)
    (hperm : (names.map ordOf).Perm (List.range' 1 names.length)) :
    (cacheUpdateOrder names ordOf).Perm names
    ∧ (cacheUpdateOrder names ordOf).length = names.length
    ∧ ∀ i (hi : i < (cacheUpdateOrder names ordOf).length),
        ordOf ((cacheUpdateOrder names ordOf).get ⟨i, hi⟩) = i + 1 := by
  classical
  have hsp : ((names.map (fun x => (ordOf x, x))).mergeSort pairLe).Perm
      (names.map (fun x => (ordOf x, x))) :=
    List.mergeSort_perm _ pairLe
  have hmapsnd : (names.map (fun x => (ordOf x, x))).map Prod.snd = names := by
    rw [List.map_map]
    have hcomp : (Prod.snd ∘ fun x : String => (ordOf x, x)) = id := rfl
    rw [hcomp, List.map_id]
  have hmapfst : (names.map (fun x => (ordOf x, x))).map Prod.fst =
      names.map ordOf := by
    rw [List.map_map]; rfl
  have hres_perm : (cacheUpdateOrder names ordOf).Perm names := by
    unfold cacheUpdateOrder
    have h1 := hsp.map Prod.snd
    rw [hmapsnd] at h1
    exact h1
  have hlen : (cacheUpdateOrder names ordOf).length = names.length :=
    hres_perm.length_eq
  have hpw : List.Pairwise (fun a b => pairLe a b = true)
      ((names.map (fun x => (ordOf x, x))).mergeSort pairLe) :=
    List.sorted_mergeSort pairLe_trans pairLe_total _
  have hords_sorted : List.Pairwise (· ≤ ·)
      (((names.map (fun x => (ordOf x, x))).mergeSort pairLe).map Prod.fst) := by
    refine hpw.map Prod.fst ?_
    intro a b h
    simp only [pairLe, Bool.or_eq_true, Bool.and_eq_true, decide_eq_true_eq]
      at h
    rcases h with h | ⟨h, _⟩
    · exact le_of_lt h
    · exact le_of_eq h
  have hords_perm :
      (((names.map (fun x => (ordOf x, x))).mergeSort pairLe).map
        Prod.fst).Perm (List.range' 1 names.length) := by
    have h1 := hsp.map Prod.fst
    rw [hmapfst] at h1
    exact h1.trans hperm
  have hrange_sorted : List.Pairwise (· ≤ ·) (List.range' 1 names.length) :=
    (List.pairwise_lt_range' 1 names.length).imp le_of_lt
  have heq : ((names.map (fun x => (ordOf x, x))).mergeSort pairLe).map
      Prod.fst = List.range' 1 names.length :=
    List.eq_of_perm_of_sorted hords_perm hords_sorted hrange_sorted
  refine ⟨hres_perm, hlen, ?_⟩
  intro i hi
  have hi' : i < ((names.map (fun x => (ordOf x, x))).mergeSort pairLe).length := by
    simpa [cacheUpdateOrder] using hi
  have hget : (cacheUpdateOrder names ordOf).get ⟨i, hi⟩ =
      (((names.map (fun x => (ordOf x, x))).mergeSort pairLe).get
        ⟨i, hi'⟩).2 := by
    simp [cacheUpdateOrder]
  have hmem : ((names.map (fun x => (ordOf x, x))).mergeSort pairLe).get
      ⟨i, hi'⟩ ∈ names.map (fun x => (ordOf x, x)) :=
    hsp.mem_iff.mp (List.get_mem _ _ hi')
  obtain ⟨x, _, hx⟩ := List.mem_map.mp hmem
  have hfst : (((names.map (fun x => (ordOf x, x))).mergeSort pairLe).get
      ⟨i, hi'⟩).1 = ordOf ((((names.map (fun x => (ordOf x, x))).mergeSort
        pairLe).get ⟨i, hi'⟩).2) := by
    rw [← hx]
  have hilen : i < (((names.map (fun x => (ordOf x, x))).mergeSort
      pairLe).map Prod.fst).length := by
    simpa using hi'
  have hords_i : ((( names.map (fun x => (ordOf x, x))).mergeSort
      pairLe).map Prod.fst).get ⟨i, hilen⟩ = 1 + i := by
    rw [List.get_of_eq heq ⟨i, hilen⟩]
    simp [List.getElem_range']
  have hgm : (((names.map (fun x => (ordOf x, x))).mergeSort pairLe).map
      Prod.fst).get ⟨i, hilen⟩ =
      (((names.map (fun x => (ordOf x, x))).mergeSort pairLe).get ⟨i, hi'⟩).1 := by
    simp
  rw [hget, ← hfst, ← hgm, hords_i]
  exact Nat.add_comm 1 i

/-- Witness for C5: the listed pair `open, closed` with looked-up
ordinals `2, 1` is stored as `closed, open` — ordinal order, not listing
or alphabetical order. -/
theorem claim_C5_cache_updates_order_witness :
    (cacheUpdateOrder ["open", "closed"]
        (fun s => if s = "open" then 2 else 1)).Perm ["open", "closed"]
    ∧ (cacheUpdateOrder ["open", "closed"]
        (fun s => if s = "open" then 2 else 1)).length = 2
    ∧ ∀ i (hi : i < (cacheUpdateOrder ["open", "closed"]
        (fun s => if s = "open" then 2 else 1)).length),
        (fun s => if s = "open" then 2 else 1)
          ((cacheUpdateOrder ["open", "closed"]
            (fun s => if s = "open" then 2 else 1)).get ⟨i, hi⟩) = i + 1 :=
  claim_C5_cache_updates_order ["open", "closed"]
    (fun s => if s = "open" then 2 else 1) (by decide)

end Roundup
